import Mathlib

/-!
Verification development for the media-player + timecode subsystem of the
Video-And-AI-App repository.

The TypeScript sources are shallowly embedded:
JavaScript numbers are modelled by `JQ` (an exact rational together with the
special values Infinity, -Infinity and NaN); strings by Lean `String`, with
the character-level operations (split, parseFloat, padStart) implemented by
structural recursion over `String.data` so that everything evaluates inside
the kernel.  Rational arithmetic is implemented through `mkRat` (the
library's `+`/`*` on `ℚ` are irreducible); the bridge lemmas `qAdd_eq` and
`qMul_eq` prove these wrappers agree with the ordinary field operations.
-/

/-- JavaScript number: an exact rational (`fin`), or one of the IEEE special
values.  The app never produces -0, so it is not distinguished from 0. -/
inductive JQ where
  | fin (q : ℚ)
  | inf
  | ninf
  | nan
deriving DecidableEq

instance : Inhabited JQ := ⟨.fin 0⟩

/-- Kernel-computable addition on `ℚ` (the library `Rat.add` is marked
irreducible, which blocks `decide`); `qAdd_eq` below shows it is `+`. -/
def qAdd (a b : ℚ) : ℚ := mkRat (a.num * b.den + b.num * a.den) (a.den * b.den)

/-- Kernel-computable multiplication on `ℚ`; `qMul_eq` shows it is `*`. -/
def qMul (a b : ℚ) : ℚ := mkRat (a.num * b.num) (a.den * b.den)

/-- Kernel-computable negation on `ℚ`. -/
def qNeg (a : ℚ) : ℚ := mkRat (-a.num) a.den

/-- Kernel-computable subtraction on `ℚ`. -/
def qSub (a b : ℚ) : ℚ := qAdd a (qNeg b)

/-- Kernel-computable division on `ℚ` (total; division by zero yields 0,
matching the library convention — the embedding only divides by nonzero
denominators or routes through `JQ.div`, which handles zero separately). -/
def qDiv (a b : ℚ) : ℚ :=
  if b.num < 0 then mkRat (-(a.num * b.den)) (a.den * b.num.natAbs)
  else mkRat (a.num * b.den) (a.den * b.num.natAbs)

/-- JavaScript `<=` on numbers: false whenever either side is NaN. -/
def JQ.le : JQ → JQ → Bool
  | .fin a, .fin b => decide (a ≤ b)
  | .fin _, .inf => true
  | .ninf, .fin _ => true
  | .ninf, .ninf => true
  | .ninf, .inf => true
  | .inf, .inf => true
  | _, _ => false

/-- JavaScript multiplication with the IEEE special values
(0 * Infinity = NaN, sign rules for infinities). -/
def JQ.mul : JQ → JQ → JQ
  | .nan, _ => .nan
  | _, .nan => .nan
  | .fin a, .fin b => .fin (qMul a b)
  | .fin a, .inf => if 0 < a then .inf else if a < 0 then .ninf else .nan
  | .fin a, .ninf => if 0 < a then .ninf else if a < 0 then .inf else .nan
  | .inf, .fin b => if 0 < b then .inf else if b < 0 then .ninf else .nan
  | .ninf, .fin b => if 0 < b then .ninf else if b < 0 then .inf else .nan
  | .inf, .inf => .inf
  | .inf, .ninf => .ninf
  | .ninf, .inf => .ninf
  | .ninf, .ninf => .inf

/-- JavaScript division with the IEEE special values: x/0 is ±Infinity for
x ≠ 0 and NaN for x = 0 (the sources never divide by a negative zero). -/
def JQ.div : JQ → JQ → JQ
  | .nan, _ => .nan
  | _, .nan => .nan
  | .fin a, .fin b =>
      if b = 0 then (if 0 < a then .inf else if a < 0 then .ninf else .nan)
      else .fin (qDiv a b)
  | .fin _, .inf => .fin 0
  | .fin _, .ninf => .fin 0
  | .inf, .fin b => if b < 0 then .ninf else .inf
  | .ninf, .fin b => if b < 0 then .inf else .ninf
  | _, _ => .nan

/-- JavaScript `x || y` for numeric x: yields y when x is falsy
(0 or NaN), x otherwise. -/
def JQ.orDefault : JQ → JQ → JQ
  | .fin a, y => if a = 0 then y else .fin a
  | .nan, y => y
  | x, _ => x

/-- JavaScript String.prototype.split with a single-character separator,
written by structural recursion over the character list ("a::b" gives
["a","","b"], ":" gives ["",""], "" gives [""]). -/
def splitOnCharAux (sep : Char) : List Char → List Char → List (List Char)
  | [], acc => [acc.reverse]
  | c :: cs, acc =>
      if c = sep then acc.reverse :: splitOnCharAux sep cs []
      else splitOnCharAux sep cs (c :: acc)

/-- timecode.split(sep) for a one-character separator. -/
def jsSplit (s : String) (sep : Char) : List String :=
  (splitOnCharAux sep s.data []).map List.asString

/-- Whitespace skipped by parseFloat before the number. -/
def isSpaceChar (c : Char) : Bool :=
  c == ' ' || c == '\t' || c == '\n' || c == '\r'

/-- Decimal digit run to a natural number (most significant first). -/
def digitsToNat : List Char → ℕ → ℕ
  | [], acc => acc
  | c :: cs, acc => digitsToNat cs (acc * 10 + (c.toNat - 48))

/-- Value of a fractional digit run: digits / 10 ^ length. -/
def fracValQ (ds : List Char) : ℚ :=
  qDiv (mkRat (Int.ofNat (digitsToNat ds 0)) 1) (mkRat ((10 : ℤ) ^ ds.length) 1)

/-- JavaScript parseFloat on the fragment the app feeds it: optional leading
whitespace, optional sign, integer digits, optional point and fraction
digits, trailing garbage ignored; NaN when no digit is found.  (The exponent
and Infinity forms of full parseFloat never occur in this app's timecode
strings and are not modelled.) -/
def jsParseFloat (s : String) : JQ :=
  let cs := s.data.dropWhile isSpaceChar
  let signAndRest : Bool × List Char :=
    match cs with
    | '-' :: r => (true, r)
    | '+' :: r => (false, r)
    | _ => (false, cs)
  let ip := signAndRest.2.takeWhile Char.isDigit
  let rest := signAndRest.2.dropWhile Char.isDigit
  let fp :=
    match rest with
    | '.' :: r => r.takeWhile Char.isDigit
    | _ => []
  if ip.isEmpty && fp.isEmpty then .nan
  else
    let v := qAdd (mkRat (Int.ofNat (digitsToNat ip 0)) 1) (fracValQ fp)
    .fin (if signAndRest.1 then qNeg v else v)

/-- Input type of utils.ts timeToSecs: string | number. -/
inductive TimeVal where
  | num (q : ℚ)
  | str (s : String)
deriving DecidableEq

instance : Inhabited TimeVal := ⟨.num 0⟩

/-- Finite value of a JavaScript number (only ever applied after the NaN
check in timeToSecs, where parseFloat results are finite). -/
def JQ.val : JQ → ℚ
  | .fin q => q
  | _ => 0

/-- Seconds from the colon components, exactly as utils.ts computes them:
two components give m*60+s, otherwise the first three give h*3600+m*60+s
(components past the third are ignored). -/
def secsOfParts (l : List ℚ) : ℚ :=
  if l.length = 2 then qAdd (qMul (l.getD 0 0) 60) (l.getD 1 0)
  else qAdd (qAdd (qMul (l.getD 0 0) 3600) (qMul (l.getD 1 0) 60)) (l.getD 2 0)

/-- utils.ts timeToSecs: numbers pass through; a colon-free string goes to
parseFloat; otherwise split on ':', parse each component, yield 0 when any
component is NaN, else combine the components. -/
def timeToSecs : TimeVal → JQ
  | .num q => .fin q
  | .str s =>
      if (s.data.contains ':') = false then jsParseFloat s
      else
        let parts := (jsSplit s ':').map jsParseFloat
        if parts.any (fun x => decide (x = JQ.nan)) then .fin 0
        else .fin (secsOfParts (parts.map JQ.val))

/-- One entry of the timecode list (types.ts): a time (string or number,
as accepted by timeToSecs) and, for text-shaped records, a text ('text' in
record is modelled by the option being some). -/
structure Timecode where
  time : TimeVal
  text : Option String := none
deriving DecidableEq

instance : Inhabited Timecode := ⟨⟨.num 0, none⟩⟩

/-- Text-shaped record as consumed by generateSrt (types.ts TextTimecode). -/
structure TextTimecode where
  time : String
  text : String
deriving DecidableEq

instance : Inhabited TextTimecode := ⟨⟨"", ""⟩⟩

/-- Math.floor on an exact rational (num/den with den positive, and `/` on
ℤ rounding toward minus infinity, is exactly the floor). -/
def jsFloor (q : ℚ) : ℤ := q.num / q.den

/-- Math.trunc on an exact rational (JavaScript % rounds the quotient
toward zero). -/
def jsTrunc (q : ℚ) : ℤ := Int.tdiv q.num q.den

/-- JavaScript remainder a % b for finite values: a - b * trunc(a/b). -/
def jsMod (a b : ℚ) : ℚ := qSub a (qMul b (mkRat (jsTrunc (qDiv a b)) 1))

/-- String.prototype.padStart with a one-character pad. -/
def padStart (s : String) (w : ℕ) (c : Char) : String :=
  if s.length < w then (List.replicate (w - s.length) c).asString ++ s else s

/-- utils.ts formatSrtTime: HH:MM:SS,mmm with zero-padding.  On the IEEE
special values JavaScript propagates them through floor, % and toString,
producing the literal strings given in the non-finite branches (these never
arise from well-formed timecode lists). -/
def formatSrtTime : JQ → String
  | .fin secs =>
      let hours := jsFloor (qDiv secs 3600)
      let minutes := jsFloor (qDiv (jsMod secs 3600) 60)
      let seconds := jsFloor (jsMod secs 60)
      let milliseconds := jsFloor (qMul (qSub secs (mkRat (jsFloor secs) 1)) 1000)
      padStart (toString hours) 2 '0' ++ ":" ++ padStart (toString minutes) 2 '0' ++ ":" ++
        padStart (toString seconds) 2 '0' ++ "," ++ padStart (toString milliseconds) 3 '0'
  | .nan => "NaN:NaN:NaN,NaN"
  | .inf => "Infinity:NaN:NaN,NaN"
  | .ninf => "-Infinity:NaN:NaN,NaN"

/-- JavaScript Array.prototype.join. -/
def joinSep (sep : String) : List String → String
  | [] => ""
  | [x] => x
  | x :: y :: xs => x ++ sep ++ joinSep sep (y :: xs)

/-- utils.ts generateSrt: one block per record (1-based number, start -->
end, text, trailing newline), blocks joined with a newline; the end time is
the next record's start, or totalDuration for the last record. -/
def generateSrt (timecodes : List TextTimecode) (totalDuration : ℚ) : String :=
  joinSep "\n" (timecodes.enum.map (fun p =>
    let index := p.1
    let item := p.2
    let startTime := timeToSecs (.str item.time)
    let endTime :=
      if index < timecodes.length - 1 then
        timeToSecs (.str (timecodes.getD (index + 1) default).time)
      else .fin totalDuration
    toString (index + 1) ++ "\n" ++ formatSrtTime startTime ++ " --> " ++
      formatSrtTime endTime ++ "\n" ++ item.text ++ "\n"))

/-- Modelled from the spec (subtitle formatter reference): the block for
index i, written by direct indexing as the spec describes it - sequence
number i+1, start = records[i].time, end = records[i+1].time when i+1
exists else totalDuration, then the text. -/
def srtSpecBlock (timecodes : List TextTimecode) (totalDuration : ℚ) (i : ℕ) : String :=
  toString (i + 1) ++ "\n" ++
    formatSrtTime (timeToSecs (.str (timecodes.getD i default).time)) ++ " --> " ++
    formatSrtTime
      (if i + 1 < timecodes.length then
        timeToSecs (.str (timecodes.getD (i + 1) default).time)
      else .fin totalDuration) ++ "\n" ++
    (timecodes.getD i default).text ++ "\n"

/-- Modelled from the spec: the whole subtitle document as an index-based
rendering of the blocks, joined with a blank line between blocks. -/
def srtSpec (timecodes : List TextTimecode) (totalDuration : ℚ) : String :=
  joinSep "\n" ((List.range timecodes.length).map (srtSpecBlock timecodes totalDuration))

/-- The media element as the player code sees it: currentTime and duration
(duration is NaN before metadata loads). -/
structure MediaEl where
  currentTime : ℚ
  duration : JQ
deriving DecidableEq

/-- VideoPlayer.tsx component state touched by the time-sync handlers. -/
structure PState where
  scrubberTime : JQ
  isPlaying : Bool
  isScrubbing : Bool
  currentCaption : Option String
deriving DecidableEq

instance : Inhabited PState := ⟨⟨.fin 0, false, false, none⟩⟩

/-- The comparison timeToSecs(timecodeList[i].time) <= currentTime used by
updateTime, at list index i. -/
def tLe (tl : List Timecode) (i : ℕ) (ct : ℚ) : Bool :=
  JQ.le (timeToSecs (tl.getD i default).time) (.fin ct)

/-- The while loop of the binary search in VideoPlayer.tsx updateTime:
mid = floor((low+high)/2); when the record's parsed time is <= currentTime
the loop records mid as bestIndex and continues right, else it continues
left. -/
def bsearchLoop (tl : List Timecode) (ct : ℚ) (low high best : ℤ) : ℤ :=
  if low ≤ high then
    if tLe tl ((low + high) / 2).toNat ct then
      bsearchLoop tl ct ((low + high) / 2 + 1) high ((low + high) / 2)
    else
      bsearchLoop tl ct low ((low + high) / 2 - 1) best
  else best
termination_by (high + 1 - low).toNat
decreasing_by
  all_goals omega

/-- bestIndex produced by updateTime's binary search (low = 0,
high = length - 1, bestIndex initialized to -1). -/
def captionIndex (tl : List Timecode) (ct : ℚ) : ℤ :=
  bsearchLoop tl ct 0 ((tl.length : ℤ) - 1) (-1)

/-- newCaption produced by updateTime: the found record's text when
bestIndex is not -1 ('text' in current ? current.text : null). -/
def captionLookup (tl : List Timecode) (ct : ℚ) : Option String :=
  if captionIndex tl ct ≠ -1 then (tl.getD (captionIndex tl ct).toNat default).text
  else none

/-- currentTime / duration || 0, the scrubber fraction recomputed by
updateTime when not scrubbing. -/
def scrubRatio (ct : ℚ) (dur : JQ) : JQ :=
  JQ.orDefault (JQ.div (.fin ct) dur) (.fin 0)

/-- VideoPlayer.tsx updateTime as a state transition: recompute the
scrubber fraction unless scrubbing, then recompute the caption from the
timecode list and the media element's currentTime (the caption update is
outside the isScrubbing guard). -/
def updateTime (tl : Option (List Timecode)) (m : MediaEl) (st : PState) : PState :=
  let st1 :=
    if st.isScrubbing = false then
      { st with scrubberTime := scrubRatio m.currentTime m.duration }
    else st
  match tl with
  | some l =>
      if 0 < l.length then { st1 with currentCaption := captionLookup l m.currentTime }
      else { st1 with currentCaption := none }
  | none => { st1 with currentCaption := none }

/-- The useEffect with dependency [url] in VideoPlayer.tsx: on a media
source change it runs setScrubberTime(0), setIsPlaying(false),
setCurrentCaption(null). -/
def resetOnUrlChange (st : PState) : PState :=
  { st with scrubberTime := .fin 0, isPlaying := false, currentCaption := none }

/-- The useEffect with dependency [requestedTimecode] in VideoPlayer.tsx:
writes the requested time verbatim to the media element's currentTime. -/
def applyRequestedTimecode (requestedTimecode : Option ℚ) (m : MediaEl) : MediaEl :=
  match requestedTimecode with
  | some t => { m with currentTime := t }
  | none => m

/-- duration * scrubberTime || 0 (VideoPlayer.tsx currentSecs). -/
def currentSecs (duration : ℚ) (scrubberTime : JQ) : JQ :=
  JQ.orDefault (JQ.mul (.fin duration) scrubberTime) (.fin 0)

/-- (secs / duration) * 100, the timecode marker percentage in
VideoPlayer.tsx (secs is the record's parsed time). -/
def markerPct (secs : JQ) (duration : ℚ) : JQ :=
  JQ.mul (JQ.div secs (.fin duration)) (.fin 100)

/-- List-level startsWith (String.startsWith does not reduce in the
kernel). -/
def strStartsWith (s pre : String) : Bool :=
  pre.data.isPrefixOf s.data

/-- Replace every backslash-quote pair by a quote, as setTimecodes in
App.tsx does with text.replace over the whole string. -/
def unescapeQuotes : List Char → List Char
  | [] => []
  | [c] => [c]
  | c1 :: c2 :: rest =>
      if c1 = '\\' ∧ c2 = Char.ofNat 39 then Char.ofNat 39 :: unescapeQuotes rest
      else c1 :: unescapeQuotes (c2 :: rest)

/-- setTimecodes sanitization of one record: text records get their escaped
quotes unescaped, other records pass through. -/
def sanitizeRecord (t : Timecode) : Timecode :=
  match t.text with
  | some tx => { t with text := some (unescapeQuotes tx.data).asString }
  | none => t

/-- App.tsx visible state touched by onModeSelect, plus the request
identifier held in latestRequestRef. -/
structure AppState where
  latestRequest : ℕ
  isLoading : Bool
  activeMode : Option String
  timecodeList : Option (List Timecode)
  textResponse : Option String
  apiError : Option String
deriving DecidableEq

/-- The synchronous opening of onModeSelect: record the new request id in
latestRequestRef and clear the result panel. -/
def issueRequest (id : ℕ) (mode : String) (st : AppState) : AppState :=
  { st with
    latestRequest := id
    activeMode := some mode
    isLoading := true
    timecodeList := none
    textResponse := none
    apiError := none }

/-- The response of generateContent as onModeSelect consumes it: the first
function call's name and timecodes argument, and the text. -/
structure GenResponse where
  callName : Option String
  callTimecodes : Option (List Timecode)
  text : Option String
deriving DecidableEq

/-- The user-facing message for a final empty response. -/
def noValidResponseMsg : String :=
  "The model didn't return a valid response after multiple attempts. Please try a different prompt."

/-- The tail of onModeSelect once the guard has passed: apply the function
call (only a set_timecodes* call mutates the list), else the text, else the
error message; finally clear isLoading. -/
def applyResultNow (resp : GenResponse) (st : AppState) : AppState :=
  let st1 :=
    match resp.callName, resp.callTimecodes with
    | some n, some tcs =>
        if strStartsWith n "set_timecodes" then
          { st with timecodeList := some (tcs.map sanitizeRecord) }
        else st
    | _, _ =>
        match resp.text with
        | some t => { st with textResponse := some t }
        | none => { st with apiError := some noValidResponseMsg }
  { st1 with isLoading := false }

/-- A resolving request in onModeSelect: the guard
latestRequestRef.current !== requestId returns before any state mutation
(the check and the mutations run in one synchronous block). -/
def applyResult (id : ℕ) (resp : GenResponse) (st : AppState) : AppState :=
  if st.latestRequest ≠ id then st else applyResultNow resp st

/-- The catch/finally of onModeSelect: the error message and the isLoading
reset are both applied only when the request is still current. -/
def applyError (id : ℕ) (msg : String) (st : AppState) : AppState :=
  if st.latestRequest = id then { st with apiError := some msg, isLoading := false }
  else st

/-- Characterization of the rightmost match: r is within bounds, every
index right of r fails the comparison, and r itself (when not -1) passes
it. -/
def IsRightmost (tl : List Timecode) (ct : ℚ) (r : ℤ) : Prop :=
  (-1 ≤ r ∧ r < (tl.length : ℤ)) ∧
  (∀ i : ℕ, r < (i : ℤ) → i < tl.length → tLe tl i ct = false) ∧
  (0 ≤ r → tLe tl r.toNat ct = true)

/-- Modelled from the spec: the linear-scan reference result - the index of
the last record in sequence order whose parsed time is <= the position,
or -1 when there is none. -/
def linearScanAux (ct : ℚ) : List Timecode → ℤ → ℤ → ℤ
  | [], _, best => best
  | r :: rest, i, best =>
      linearScanAux ct rest (i + 1)
        (if JQ.le (timeToSecs r.time) (.fin ct) then i else best)

/-- Modelled from the spec: linear scan over the whole list starting at
index 0 with no match recorded. -/
def linearScan (tl : List Timecode) (ct : ℚ) : ℤ :=
  linearScanAux ct tl 0 (-1)

theorem qAdd_eq (a b : ℚ) : qAdd a b = a + b := by
  have ha : ((a.den : ℚ)) ≠ 0 := by exact_mod_cast a.den_nz
  have hb : ((b.den : ℚ)) ≠ 0 := by exact_mod_cast b.den_nz
  rw [qAdd, Rat.mkRat_eq_div]
  push_cast
  conv_rhs => rw [← Rat.num_div_den a, ← Rat.num_div_den b, div_add_div _ _ ha hb]
  ring_nf

theorem qMul_eq (a b : ℚ) : qMul a b = a * b := by
  rw [qMul, Rat.mkRat_eq_div]
  push_cast
  conv_rhs => rw [← Rat.num_div_den a, ← Rat.num_div_den b, div_mul_div_comm]

theorem JQ.le_trans {a b c : JQ} (hab : JQ.le a b = true) (hbc : JQ.le b c = true) :
    JQ.le a c = true := by
  cases a <;> cases b <;> cases c <;> simp_all [JQ.le]
  exact hab.trans hbc

theorem isRightmost_unique {tl : List Timecode} {ct : ℚ} {r1 r2 : ℤ}
    (h1 : IsRightmost tl ct r1) (h2 : IsRightmost tl ct r2) : r1 = r2 := by
  have key : ∀ a b : ℤ, IsRightmost tl ct a → IsRightmost tl ct b → a < b → False := by
    intro a b ha hb hab
    obtain ⟨⟨halb, haub⟩, hafalse, _⟩ := ha
    obtain ⟨⟨hblb, hbub⟩, _, hbtrue⟩ := hb
    have hb0 : 0 ≤ b := by omega
    have hT := hbtrue hb0
    have hF := hafalse b.toNat (by omega) (by omega)
    rw [hT] at hF
    exact Bool.true_eq_false.mp hF
  rcases lt_trichotomy r1 r2 with h | h | h
  · exact absurd (key r1 r2 h1 h2 h) not_false
  · exact h
  · exact absurd (key r2 r1 h2 h1 h) not_false

/-- Loop-invariant correctness of the binary search: when the predicate
"parsed time <= position" is downward closed along the (sorted) list, the
loop returns the rightmost index satisfying it. -/
theorem bsearchLoop_inv (tl : List Timecode) (ct : ℚ)
    (hmono : ∀ i j : ℕ, i ≤ j → j < tl.length → tLe tl j ct = true → tLe tl i ct = true) :
    ∀ (n : ℕ) (low high best : ℤ), (high + 1 - low).toNat = n →
      0 ≤ low → low ≤ high + 1 → high < (tl.length : ℤ) →
      best = low - 1 →
      (∀ i : ℕ, (i : ℤ) < low → tLe tl i ct = true) →
      (∀ i : ℕ, high < (i : ℤ) → i < tl.length → tLe tl i ct = false) →
      IsRightmost tl ct (bsearchLoop tl ct low high best) := by
  intro n
  induction n using Nat.strong_induction_on with
  | _ n IH =>
    intro low high best hn h0 hup hhi hbest hA hB
    rw [bsearchLoop]
    by_cases hlh : low ≤ high
    · rw [if_pos hlh]
      by_cases hle : tLe tl ((low + high) / 2).toNat ct = true
      · rw [if_pos hle]
        refine IH (high + 1 - ((low + high) / 2 + 1)).toNat (by omega)
          ((low + high) / 2 + 1) high ((low + high) / 2) rfl
          (by omega) (by omega) hhi (by omega) ?_ hB
        intro i hi
        exact hmono i ((low + high) / 2).toNat (by omega) (by omega) hle
      · rw [if_neg hle]
        refine IH (((low + high) / 2 - 1) + 1 - low).toNat (by omega)
          low ((low + high) / 2 - 1) best rfl
          h0 (by omega) (by omega) hbest hA ?_
        intro i hi hil
        rcases le_or_lt ((i : ℤ)) high with hih | hih
        · cases hc : tLe tl i ct
          · rfl
          · exact absurd (hmono ((low + high) / 2).toNat i (by omega) hil hc) hle
        · exact hB i hih hil
    · rw [if_neg hlh]
      refine ⟨⟨by omega, by omega⟩, ?_, ?_⟩
      · intro i hi hil
        exact hB i (by omega) hil
      · intro hb
        exact hA best.toNat (by omega)

theorem linearScanAux_spec (ct : ℚ) :
    ∀ (l : List Timecode) (i best : ℤ),
      (linearScanAux ct l i best = best ∧
        ∀ j : ℕ, j < l.length → tLe l j ct = false) ∨
      (∃ k : ℕ, k < l.length ∧ linearScanAux ct l i best = i + k ∧
        tLe l k ct = true ∧
        ∀ j : ℕ, k < j → j < l.length → tLe l j ct = false) := by
  intro l
  induction l with
  | nil =>
      intro i best
      left
      exact ⟨rfl, fun j hj => absurd hj (by simp)⟩
  | cons r rest IHl =>
      intro i best
      rw [linearScanAux]
      rcases IHl (i + 1) (if JQ.le (timeToSecs r.time) (.fin ct) then i else best) with
        ⟨heq, hall⟩ | ⟨k, hk, heq, hkT, hall⟩
      · by_cases hr : JQ.le (timeToSecs r.time) (.fin ct) = true
        · right
          refine ⟨0, by simp, ?_, ?_, ?_⟩
          · rw [heq, if_pos hr]
            omega
          · simpa [tLe] using hr
          · intro j hj hjl
            match j, hj with
            | j' + 1, _ =>
              simpa [tLe, List.getD_cons_succ] using hall j' (by simpa using hjl)
        · left
          constructor
          · rw [heq, if_neg hr]
          · intro j hjl
            match j with
            | 0 => simpa [tLe] using (Bool.not_eq_true _).mp hr
            | j' + 1 =>
              simpa [tLe, List.getD_cons_succ] using hall j' (by simpa using hjl)
      · right
        refine ⟨k + 1, by simpa using Nat.succ_lt_succ hk, ?_, ?_, ?_⟩
        · rw [heq]
          push_cast
          ring
        · simpa [tLe, List.getD_cons_succ] using hkT
        · intro j hj hjl
          match j, hj with
          | j' + 1, hj =>
            simpa [tLe, List.getD_cons_succ] using hall j' (by omega) (by simpa using hjl)

theorem linearScan_isRightmost (tl : List Timecode) (ct : ℚ) :
    IsRightmost tl ct (linearScan tl ct) := by
  rw [linearScan]
  rcases linearScanAux_spec ct tl 0 (-1) with ⟨heq, hall⟩ | ⟨k, hk, heq, hkT, hall⟩
  · rw [heq]
    refine ⟨⟨le_refl _, by omega⟩, fun i _ hil => hall i hil, ?_⟩
    intro h
    exact absurd h (by omega)
  · rw [heq]
    refine ⟨⟨by omega, by omega⟩, ?_, ?_⟩
    · intro i hi hil
      exact hall i (by omega) hil
    · intro _
      have : (0 + (k : ℤ)).toNat = k := by omega
      rw [this]
      exact hkT

/-- C1: For every sequence of timecode records ascending-sorted by parsed
time and every playback position p, the binary search in updateTime selects
exactly the index a linear scan would select - the rightmost record whose
parsed time is <= p - and selects none (index -1) exactly when the sequence
is empty or every record's time exceeds p. -/
theorem caption_binary_search_eq_linear_scan (tl : List Timecode) (p : ℚ)
    (hs : List.Pairwise
      (fun a b => JQ.le (timeToSecs a.time) (timeToSecs b.time) = true) tl) :
    captionIndex tl p = linearScan tl p ∧
    (captionIndex tl p = -1 ↔
      ∀ r ∈ tl, JQ.le (timeToSecs r.time) (.fin p) = false) := by
  have hmono : ∀ i j : ℕ, i ≤ j → j < tl.length →
      tLe tl j p = true → tLe tl i p = true := by
    intro i j hij hj hT
    rcases eq_or_lt_of_le hij with rfl | hlt
    · exact hT
    · have hR := (List.pairwise_iff_getElem.mp hs) i j (by omega) hj hlt
      have hi : i < tl.length := by omega
      have hgi : tl.getD i default = tl[i] := List.getD_eq_getElem tl default hi
      have hgj : tl.getD j default = tl[j] := List.getD_eq_getElem tl default hj
      rw [tLe, hgi]
      rw [tLe, hgj] at hT
      exact JQ.le_trans hR hT
  have hbs : IsRightmost tl p (captionIndex tl p) := by
    refine bsearchLoop_inv tl p hmono ((tl.length : ℤ) - 1 + 1 - 0).toNat
      0 ((tl.length : ℤ) - 1) (-1) rfl (by omega) (by omega) (by omega) (by omega)
      ?_ ?_
    · intro i hi
      exact absurd hi (by omega)
    · intro i hi hil
      exact absurd hil (by omega)
  have hls := linearScan_isRightmost tl p
  refine ⟨isRightmost_unique hbs hls, ?_, ?_⟩
  · intro h r hr
    rw [h] at hbs
    obtain ⟨i, hi, rfl⟩ := List.mem_iff_getElem.mp hr
    have := hbs.2.1 i (by omega) hi
    rw [tLe, List.getD_eq_getElem tl default hi] at this
    exact this
  · intro hall
    by_contra hne
    have h0 : 0 ≤ captionIndex tl p := by
      have := hbs.1.1
      omega
    have hlt : (captionIndex tl p).toNat < tl.length := by
      have := hbs.1.2
      omega
    have hT := hbs.2.2 h0
    have hmem : tl.getD (captionIndex tl p).toNat default ∈ tl := by
      rw [List.getD_eq_getElem tl default hlt]
      exact List.getElem_mem hlt
    have hF := hall _ hmem
    rw [tLe] at hT
    rw [hT] at hF
    exact Bool.true_eq_false.mp hF

/-- Witness for C1 at the coincident-timestamp instance of the spec: the
sequence [(t 5, "a"), (t 5, "b")] at position 5 is sorted, the binary
search agrees with the linear scan there, the selected index is 1, and the
selected caption is the "b" record's text. -/
theorem caption_binary_search_eq_linear_scan_witness :
    List.Pairwise
      (fun a b : Timecode => JQ.le (timeToSecs a.time) (timeToSecs b.time) = true)
      ([⟨.num 5, some "a"⟩, ⟨.num 5, some "b"⟩] : List Timecode) ∧
    captionIndex [⟨.num 5, some "a"⟩, ⟨.num 5, some "b"⟩] 5 =
      linearScan [⟨.num 5, some "a"⟩, ⟨.num 5, some "b"⟩] 5 ∧
    linearScan [⟨.num 5, some "a"⟩, ⟨.num 5, some "b"⟩] 5 = 1 ∧
    captionLookup [⟨.num 5, some "a"⟩, ⟨.num 5, some "b"⟩] 5 = some "b" := by
  have h := caption_binary_search_eq_linear_scan
    [⟨.num 5, some "a"⟩, ⟨.num 5, some "b"⟩] 5 (by decide)
  refine ⟨by decide, h.1, by decide, ?_⟩
  rw [captionLookup, h.1]
  decide

theorem updateTime_isScrubbing (tl : Option (List Timecode)) (m : MediaEl) (st : PState) :
    (updateTime tl m st).isScrubbing = st.isScrubbing := by
  rw [updateTime.eq_def]
  cases tl <;> simp only [] <;> split_ifs <;> rfl

theorem updateTime_scrubberTime_of_scrubbing (tl : Option (List Timecode)) (m : MediaEl)
    (st : PState) (h : st.isScrubbing = true) :
    (updateTime tl m st).scrubberTime = st.scrubberTime := by
  rw [updateTime.eq_def]
  cases tl <;> simp only [h] <;> split_ifs <;> simp_all

theorem updateTime_caption (tl : List Timecode) (m : MediaEl) (st : PState) :
    (updateTime (some tl) m st).currentCaption =
      (if 0 < tl.length then captionLookup tl m.currentTime else none) := by
  rw [updateTime.eq_def]
  split_ifs <;> simp_all

/-- C2 amended: while the scrubbing flag is set, any sequence of native
position ticks leaves the scrubber position and the flag itself unchanged,
but each tick still recomputes the displayed caption from the media
element's current position (the isScrubbing guard in updateTime covers only
the scrubber-position update, not the caption update). -/
theorem scrub_tick_behavior (events : List (Option (List Timecode) × MediaEl))
    (st : PState) (h : st.isScrubbing = true) :
    (events.foldl (fun s e => updateTime e.1 e.2 s) st).scrubberTime = st.scrubberTime ∧
    (events.foldl (fun s e => updateTime e.1 e.2 s) st).isScrubbing = true ∧
    ∀ (tl : List Timecode) (m : MediaEl) (s : PState),
      (updateTime (some tl) m s).currentCaption =
        (if 0 < tl.length then captionLookup tl m.currentTime else none) := by
  refine ⟨?_, ?_, fun tl m s => updateTime_caption tl m s⟩
  · induction events generalizing st with
    | nil => rfl
    | cons e rest ih =>
        rw [List.foldl_cons]
        rw [ih (updateTime e.1 e.2 st) (by rw [updateTime_isScrubbing]; exact h)]
        exact updateTime_scrubberTime_of_scrubbing e.1 e.2 st h
  · induction events generalizing st with
    | nil => exact h
    | cons e rest ih =>
        rw [List.foldl_cons]
        exact ih (updateTime e.1 e.2 st) (by rw [updateTime_isScrubbing]; exact h)

/-- Witness for the amended C2 at a concrete scrubbing state and a single
tick carrying a one-record timecode list. -/
theorem scrub_tick_behavior_witness :
    ((⟨.fin 7, false, true, none⟩ : PState).isScrubbing = true) ∧
    (([((some [⟨.num 0, some "x"⟩] : Option (List Timecode)), (⟨0, .fin 10⟩ : MediaEl))].foldl
        (fun s e => updateTime e.1 e.2 s) (⟨.fin 7, false, true, none⟩ : PState)).scrubberTime =
      .fin 7) := by
  have h := scrub_tick_behavior
    [((some [⟨.num 0, some "x"⟩] : Option (List Timecode)), (⟨0, .fin 10⟩ : MediaEl))]
    (⟨.fin 7, false, true, none⟩ : PState) rfl
  exact ⟨rfl, h.1⟩

/-- C2 counterexample: in a scrubbing state with no caption displayed, one
native tick at position 0 with a record at time 0 changes the displayed
caption from none to "x" - ticks during scrubbing do change the caption. -/
theorem scrub_tick_changes_caption_cex :
    ((⟨.fin 0, false, true, none⟩ : PState).isScrubbing = true) ∧
    ((⟨.fin 0, false, true, none⟩ : PState).currentCaption = none) ∧
    (updateTime (some [⟨.num 0, some "x"⟩]) ⟨0, .fin 10⟩
        (⟨.fin 0, false, true, none⟩ : PState)).currentCaption = some "x" := by
  refine ⟨rfl, rfl, ?_⟩
  have hidx : captionIndex [⟨.num 0, some "x"⟩] 0 = 0 := by
    rw [captionIndex]
    rw [bsearchLoop]; norm_num [tLe, JQ.le, timeToSecs]
    rw [bsearchLoop]; norm_num
  rw [updateTime.eq_def]
  simp [captionLookup, hidx]

/-- C7 amended: on a media source change the player resets the scrubber
position to 0, clears the caption and the playing flag, for every prior
state - but the scrubbing flag is left unchanged, not cleared. -/
theorem reset_on_url_change (st : PState) :
    (resetOnUrlChange st).scrubberTime = .fin 0 ∧
    (resetOnUrlChange st).currentCaption = none ∧
    (resetOnUrlChange st).isPlaying = false ∧
    (resetOnUrlChange st).isScrubbing = st.isScrubbing :=
  ⟨rfl, rfl, rfl, rfl⟩

/-- C7 counterexample: a url change from a scrubbing state does not clear
the scrubbing flag. -/
theorem reset_on_url_change_cex :
    ¬ ((resetOnUrlChange ⟨.fin 1, true, true, some "c"⟩).isScrubbing = false) := by
  decide

/-- C9 amended: the requestedTimecode effect writes the requested target
verbatim to the media element's currentTime - no clamping to [0, duration]
happens in this code (any clamping is behavior of the media element itself,
outside the repository). -/
theorem apply_requested_timecode_verbatim (t : ℚ) (m : MediaEl) :
    (applyRequestedTimecode (some t) m).currentTime = t ∧
    (applyRequestedTimecode (some t) m).duration = m.duration ∧
    applyRequestedTimecode none m = m :=
  ⟨rfl, rfl, rfl⟩

/-- C9 counterexample: a seek to -1 on a player of duration 10 produces
playback position -1, not the claimed clamp to 0. -/
theorem apply_requested_timecode_cex :
    (applyRequestedTimecode (some (-1)) ⟨0, .fin 10⟩).currentTime = -1 ∧
    ¬ (0 ≤ (applyRequestedTimecode (some (-1)) ⟨0, .fin 10⟩).currentTime) := by
  refine ⟨rfl, ?_⟩
  norm_num [applyRequestedTimecode]

/-- C8 amended: with duration 0 the || 0 guards do force the
current-seconds display to 0 (for every scrubber value) and the scrubber
recomputation at position 0 to 0; but the timecode-marker percentage
(secs / duration) * 100 is unguarded: at duration 0 it evaluates to
Infinity for a marker at positive seconds and to NaN for a marker at 0. -/
theorem duration_zero_percentages (st : JQ) (q : ℚ) (hq : 0 < q) :
    currentSecs 0 st = .fin 0 ∧
    scrubRatio 0 (.fin 0) = .fin 0 ∧
    markerPct (.fin q) 0 = .inf ∧
    markerPct (.fin 0) 0 = .nan := by
  refine ⟨?_, by decide, ?_, by decide⟩
  · cases st <;> simp [currentSecs, JQ.mul, JQ.orDefault, qMul_eq]
  · simp [markerPct, JQ.div, JQ.mul, hq]

/-- Witness for the amended C8 at scrubber value 3 and marker seconds 5. -/
theorem duration_zero_percentages_witness :
    (0 : ℚ) < 5 ∧
    (currentSecs 0 (.fin 3) = .fin 0 ∧
      scrubRatio 0 (.fin 0) = .fin 0 ∧
      markerPct (.fin 5) 0 = .inf ∧
      markerPct (.fin 0) 0 = .nan) :=
  ⟨by decide, duration_zero_percentages (.fin 3) 5 (by decide)⟩

/-- C8 counterexample: at duration 0 a marker at 5 seconds has percentage
Infinity, not the claimed 0. -/
theorem marker_pct_unguarded_cex :
    markerPct (.fin 5) 0 = .inf ∧ markerPct (.fin 5) 0 ≠ .fin 0 := by
  decide

/-- C3 amended: timeToSecs is a total function (it always returns a value,
never an exception); a colon-containing string with any non-numeric
component yields 0; but a colon-free string falls through to parseFloat,
whose result on non-numeric text is NaN, not 0. -/
theorem time_to_secs_malformed (s : String)
    (h1 : s.data.contains ':' = true)
    (h2 : ((jsSplit s ':').map jsParseFloat).any (fun x => decide (x = JQ.nan)) = true) :
    timeToSecs (.str s) = .fin 0 ∧
    ∀ s2 : String, s2.data.contains ':' = false → timeToSecs (.str s2) = jsParseFloat s2 := by
  constructor
  · simp only [timeToSecs]
    rw [h1, h2]
    simp
  · intro s2 hs2
    simp only [timeToSecs]
    rw [hs2]
    simp

/-- Witness for the amended C3: "a:b" has a NaN component and yields 0;
"bad" is colon-free and yields its parseFloat value (which is NaN). -/
theorem time_to_secs_malformed_witness :
    timeToSecs (.str "a:b") = .fin 0 ∧
    timeToSecs (.str "bad") = jsParseFloat "bad" :=
  ⟨(time_to_secs_malformed "a:b" (by decide) (by decide)).1,
   (time_to_secs_malformed "a:b" (by decide) (by decide)).2 "bad" (by decide)⟩

/-- C3 counterexample: parse("bad") is NaN, not the claimed 0. -/
theorem time_to_secs_bad_cex :
    timeToSecs (.str "bad") = .nan ∧ timeToSecs (.str "bad") ≠ .fin 0 := by
  decide

/-- C6: timeToSecs computes the reference arithmetic: a numeric input is
returned as-is; two numeric colon components m and s give m*60+s; three
give h*3600+m*60+s; a colon-free numeric string gives its parseFloat
value; and the spec's samples evaluate to 3723, 123, 45 and 90. -/
theorem time_to_secs_reference :
    (∀ q : ℚ, timeToSecs (.num q) = .fin q) ∧
    (∀ (s : String) (m sec : ℚ), s.data.contains ':' = true →
      (jsSplit s ':').map jsParseFloat = [.fin m, .fin sec] →
      timeToSecs (.str s) = .fin (m * 60 + sec)) ∧
    (∀ (s : String) (hr m sec : ℚ), s.data.contains ':' = true →
      (jsSplit s ':').map jsParseFloat = [.fin hr, .fin m, .fin sec] →
      timeToSecs (.str s) = .fin (hr * 3600 + m * 60 + sec)) ∧
    (∀ (s : String) (q : ℚ), s.data.contains ':' = false →
      jsParseFloat s = .fin q → timeToSecs (.str s) = .fin q) ∧
    timeToSecs (.str "01:02:03") = .fin 3723 ∧
    timeToSecs (.str "02:03") = .fin 123 ∧
    timeToSecs (.str "45") = .fin 45 ∧
    timeToSecs (.num 90) = .fin 90 := by
  refine ⟨fun q => rfl, ?_, ?_, ?_, by decide, by decide, by decide, rfl⟩
  · intro s m sec h1 h2
    simp only [timeToSecs]
    rw [h1, h2]
    norm_num [secsOfParts, JQ.val, qAdd_eq, qMul_eq]
    rintro (h | h) <;> simp at h
  · intro s hr m sec h1 h2
    simp only [timeToSecs]
    rw [h1, h2]
    norm_num [secsOfParts, JQ.val, qAdd_eq, qMul_eq]
    rintro (h | h | h) <;> simp at h
  · intro s q h1 h2
    simp only [timeToSecs]
    rw [h1, h2]
    simp

/-- Witness for C6 at the spec's sample strings, applying the general
component statements at their concrete component lists. -/
theorem time_to_secs_reference_witness :
    timeToSecs (.str "02:03") = .fin (2 * 60 + 3) ∧
    timeToSecs (.str "01:02:03") = .fin (1 * 3600 + 2 * 60 + 3) ∧
    timeToSecs (.str "45") = .fin 45 :=
  ⟨time_to_secs_reference.2.1 "02:03" 2 3 (by decide) (by decide),
   time_to_secs_reference.2.2.1 "01:02:03" 1 2 3 (by decide) (by decide),
   time_to_secs_reference.2.2.2.1 "45" 45 (by decide) (by decide)⟩

/-- C10: a colon string with four or more components is combined from the
first three exactly as a three-component one (components past the third are
silently ignored), and any NaN component - including an ignored extra one -
still forces the result 0. -/
theorem time_to_secs_extra_components (s : String) (hq mq sq : ℚ) (rest : List JQ)
    (h1 : s.data.contains ':' = true)
    (hl : (jsSplit s ':').map jsParseFloat = .fin hq :: .fin mq :: .fin sq :: rest)
    (hlen : 1 ≤ rest.length) :
    (rest.any (fun x => decide (x = JQ.nan)) = false →
      timeToSecs (.str s) = .fin (hq * 3600 + mq * 60 + sq)) ∧
    (rest.any (fun x => decide (x = JQ.nan)) = true →
      timeToSecs (.str s) = .fin 0) := by
  constructor
  · intro hno
    simp only [timeToSecs]
    rw [h1, hl]
    have hcond :
        ((JQ.fin hq :: JQ.fin mq :: JQ.fin sq :: rest).any fun x => decide (x = JQ.nan)) =
          false := by
      simp [hno]
    rw [if_neg (by simp), hcond, if_neg (by simp)]
    rw [secsOfParts.eq_def, if_neg (by simp only [List.length_map, List.length_cons]; omega)]
    norm_num [JQ.val, qAdd_eq, qMul_eq]
  · intro hyes
    simp only [timeToSecs]
    rw [h1, hl]
    norm_num [hyes]

/-- Witness for C10: "1:2:3:4" ignores the trailing 4 and yields 3723;
"1:2:3:x" has a NaN extra component and yields 0. -/
theorem time_to_secs_extra_components_witness :
    timeToSecs (.str "1:2:3:4") = .fin (1 * 3600 + 2 * 60 + 3) ∧
    timeToSecs (.str "1:2:3:x") = .fin 0 :=
  ⟨(time_to_secs_extra_components "1:2:3:4" 1 2 3 [.fin 4]
      (by decide) (by decide) (by decide)).1 (by decide),
   (time_to_secs_extra_components "1:2:3:x" 1 2 3 [.nan]
      (by decide) (by decide) (by decide)).2 (by decide)⟩

/-- C4: generateSrt emits exactly the index-based blocks the spec
describes (1-based sequence number, formatted start --> end with end taken
from the next record or totalDuration, then the text, blocks separated by
a blank line), the empty list yields the empty string, and the spec's
two-record sample produces the stated spans. -/
theorem generate_srt_matches_spec (timecodes : List TextTimecode) (d : ℚ) :
    generateSrt timecodes d = srtSpec timecodes d ∧
    generateSrt ([] : List TextTimecode) d = "" ∧
    generateSrt [⟨"0:00", "Hi"⟩, ⟨"0:05", "Bye"⟩] 10 =
      "1\n00:00:00,000 --> 00:00:05,000\nHi\n\n2\n00:00:05,000 --> 00:00:10,000\nBye\n" := by
  refine ⟨?_, rfl, by decide⟩
  rw [generateSrt, srtSpec]
  congr 1
  apply List.ext_getElem
  · simp
  · intro i h1 h2
    simp only [List.getElem_map, List.getElem_enum, List.getElem_range]
    have hi : i < timecodes.length := by simpa using h2
    rw [srtSpecBlock]
    rw [List.getD_eq_getElem timecodes default hi]
    by_cases hend : i + 1 < timecodes.length
    · rw [if_pos (by omega), if_pos hend]
    · rw [if_neg (by omega), if_neg hend]

/-- C5: after request A is issued and request B supersedes it (B's id is
the one held in latestRequestRef), A's arriving result is discarded without
mutating any state (timecode list, text response, error message all
unchanged), A's arriving error is likewise discarded, while B's result,
arriving after, applies exactly as a current response does. -/
theorem stale_response_discarded (st : AppState) (idA idB : ℕ)
    (modeA modeB : String) (respA respB : GenResponse) (msgA : String)
    (hne : idA ≠ idB) :
    applyResult idA respA (issueRequest idB modeB (issueRequest idA modeA st)) =
      issueRequest idB modeB (issueRequest idA modeA st) ∧
    applyError idA msgA (issueRequest idB modeB (issueRequest idA modeA st)) =
      issueRequest idB modeB (issueRequest idA modeA st) ∧
    applyResult idB respB
        (applyResult idA respA (issueRequest idB modeB (issueRequest idA modeA st))) =
      applyResultNow respB (issueRequest idB modeB (issueRequest idA modeA st)) := by
  have h1 :
      applyResult idA respA (issueRequest idB modeB (issueRequest idA modeA st)) =
        issueRequest idB modeB (issueRequest idA modeA st) := by
    rw [applyResult, if_pos]
    exact fun h => hne (h.symm)
  refine ⟨h1, ?_, ?_⟩
  · rw [applyError, if_neg]
    exact fun h => hne (h.symm)
  · rw [h1, applyResult, if_neg]
    simp [issueRequest]

/-- Witness for C5 at concrete ids 1 and 2: the stale text response of
request 1 is dropped and the timecode result of request 2 is applied. -/
theorem stale_response_discarded_witness :
    (1 : ℕ) ≠ 2 ∧
    applyResult 1 ⟨none, none, some "stale"⟩
        (issueRequest 2 "B" (issueRequest 1 "A" ⟨0, false, none, none, none, none⟩)) =
      issueRequest 2 "B" (issueRequest 1 "A" ⟨0, false, none, none, none, none⟩) ∧
    applyResult 2 ⟨some "set_timecodes", some [⟨.num 1, some "t"⟩], none⟩
        (applyResult 1 ⟨none, none, some "stale"⟩
          (issueRequest 2 "B" (issueRequest 1 "A" ⟨0, false, none, none, none, none⟩))) =
      applyResultNow ⟨some "set_timecodes", some [⟨.num 1, some "t"⟩], none⟩
        (issueRequest 2 "B" (issueRequest 1 "A" ⟨0, false, none, none, none, none⟩)) := by
  have h := stale_response_discarded ⟨0, false, none, none, none, none⟩ 1 2 "A" "B"
    ⟨none, none, some "stale"⟩ ⟨some "set_timecodes", some [⟨.num 1, some "t"⟩], none⟩
    "unused" (by decide)
  exact ⟨by decide, h.1, h.2.2⟩
